import Mathlib

/-!
# Verification of the AxiaMTL translation pipeline

Shallow embedding of the text-processing pipeline of the AxiaMTL repository
(`translate.py`, `version/translate v1.1.py`, `mariantl.py`, `deepl-tl.py`,
`vllm_translator.py`) together with theorems settling the frozen claims about
its specification.

Modelling conventions:
* Python strings are Lean `String`s; per-character work is done on `String.data`.
* Python's Unicode whitespace (`str.strip`, regex `\s`) is modelled by
  `pyIsSpace`, covering the ASCII whitespace characters plus NBSP and the
  ideographic space U+3000 — the whitespace characters that occur in the
  documents this program processes.
* Regex character classes are modelled by executable `Char → Bool` predicates
  over code points.
* The external translation backend is an oracle: for each paragraph index and
  attempt number it either returns a string or raises an exception.
* Recursions that consume a computed suffix of the input use an explicit fuel
  argument (always instantiated with the input length, which suffices because
  every step consumes at least one character); this keeps every definition
  kernel-reducible.
-/

namespace AxiaMTL

/-- Code point of a character, as a natural number. -/
def codeOf (c : Char) : Nat := c.val.toNat

/-- Python whitespace (for `str.strip` and the regex class `\s`): ASCII
whitespace, NBSP and the ideographic space U+3000. -/
def pyIsSpace (c : Char) : Bool :=
  codeOf c = 0x20 || codeOf c = 0x09 || codeOf c = 0x0A || codeOf c = 0x0D ||
  codeOf c = 0x0B || codeOf c = 0x0C || codeOf c = 0xA0 || codeOf c = 0x3000

/-- The character class of `is_meaningful` in `translate.py`:
`[ぁ-んァ-ン一-龯가-힣a-zA-Z]` (Hiragana, Katakana, CJK ideographs, Hangul
syllables, ASCII letters). -/
def isScriptChar (c : Char) : Bool :=
  (0x3041 ≤ codeOf c && codeOf c ≤ 0x3093) ||
  (0x30A1 ≤ codeOf c && codeOf c ≤ 0x30F3) ||
  (0x4E00 ≤ codeOf c && codeOf c ≤ 0x9FAF) ||
  (0xAC00 ≤ codeOf c && codeOf c ≤ 0xD7A3) ||
  ('a' ≤ c && c ≤ 'z') || ('A' ≤ c && c ≤ 'Z')

/-- The character class of `is_meaningful` in `version/translate v1.1.py` and
`backup/translate_file.py`: `[ぁ-んァ-ン一-龯가-힣]` (no Latin letters). -/
def isScriptCharV11 (c : Char) : Bool :=
  (0x3041 ≤ codeOf c && codeOf c ≤ 0x3093) ||
  (0x30A1 ≤ codeOf c && codeOf c ≤ 0x30F3) ||
  (0x4E00 ≤ codeOf c && codeOf c ≤ 0x9FAF) ||
  (0xAC00 ≤ codeOf c && codeOf c ≤ 0xD7A3)

/-- Python's regex word character `\w` (so `\W` is its negation), modelled over
ASCII and the Japanese/Korean script blocks this program processes. -/
def isWordChar (c : Char) : Bool :=
  (0x61 ≤ codeOf c && codeOf c ≤ 0x7A) || (0x41 ≤ codeOf c && codeOf c ≤ 0x5A) ||
  (0x30 ≤ codeOf c && codeOf c ≤ 0x39) || codeOf c = 0x5F ||
  (0x3041 ≤ codeOf c && codeOf c ≤ 0x3096) ||
  (0x30A1 ≤ codeOf c && codeOf c ≤ 0x30FA) || codeOf c = 0x30FC ||
  (0x4E00 ≤ codeOf c && codeOf c ≤ 0x9FFF) ||
  (0xAC00 ≤ codeOf c && codeOf c ≤ 0xD7A3)

/-- The opening-quote/bracket class `[「『（〈《]` of `clean_paragraph`
(code points U+300C, U+300E, U+FF08, U+3008, U+300A). -/
def openBracketChar (c : Char) : Bool :=
  codeOf c = 0x300C || codeOf c = 0x300E || codeOf c = 0xFF08 ||
  codeOf c = 0x3008 || codeOf c = 0x300A

/-- The period/ellipsis class `[.…。]` of `clean_paragraph`
(code points U+002E, U+2026, U+3002). -/
def dotChar (c : Char) : Bool :=
  codeOf c = 0x2E || codeOf c = 0x2026 || codeOf c = 0x3002

/-- Characters removed by `sanitize_filename`: `[\\/:*?"<>|]`. -/
def illegalFilenameChar (c : Char) : Bool :=
  c = '\\' || c = '/' || c = ':' || c = '*' || c = '?' || c = '"' || c = '<' || c = '>' || c = '|'

/-- Japanese sentence-ending punctuation `[。！？]` used by
`split_text_by_sentence` (code points U+3002, U+FF01, U+FF1F). -/
def sentEnd (c : Char) : Bool :=
  codeOf c = 0x3002 || codeOf c = 0xFF01 || codeOf c = 0xFF1F

/-! ## Python `str.strip` -/

/-- Remove leading whitespace (`dropWhile`). -/
def trimLead (l : List Char) : List Char := l.dropWhile pyIsSpace

/-- Remove trailing whitespace. -/
def trimTrail (l : List Char) : List Char := (l.reverse.dropWhile pyIsSpace).reverse

/-- Python `str.strip()` on a character list. -/
def pyStripL (l : List Char) : List Char := trimTrail (trimLead l)

/-- Python `str.strip()`. -/
def pyStrip (s : String) : String := String.mk (pyStripL s.data)

/-! ## Functions of `translate.py` -/

/-- Embedding of `is_meaningful` (translate.py lines 45-46):
`re.search(r'[ぁ-んァ-ン一-龯가-힣a-zA-Z]', text) is not None`. -/
def is_meaningful (s : String) : Bool := s.data.any isScriptChar

/-- Embedding of `is_meaningful` from `version/translate v1.1.py` (lines 53-54): the same
search without the Latin range. -/
def is_meaningful_v11 (s : String) : Bool := s.data.any isScriptCharV11

/-- Effect of `re.sub(r'^[「『（〈《]*$', '', ·)`: the anchored pattern matches
(and blanks) exactly a string consisting only of opening quotes/brackets;
the `*` also matches the empty string. -/
def subBrackets (t : List Char) : List Char :=
  if t.all openBracketChar then [] else t

/-- Effect of `re.sub(r'^[.…。]+$', '', ·)`: the `+` needs at least one
character, so only a non-empty all-dots string is blanked. -/
def subDots (t : List Char) : List Char :=
  if !t.isEmpty && t.all dotChar then [] else t

/-- Effect of `re.sub(r'^\W+$', '', ·)`. -/
def subNonWord (t : List Char) : List Char :=
  if !t.isEmpty && t.all (fun c => !isWordChar c) then [] else t

/-- Embedding of `clean_paragraph` (translate.py lines 48-53): strip, then
blank out a string that is entirely opening quotes/brackets
(`^[「『（〈《]*$`), entirely periods/ellipses (`^[.…。]+$`), or entirely
non-word characters (`^\W+$`), then strip again.  Each anchored `re.sub`
replaces the whole string by the empty string exactly when the whole string
matches the class, and leaves it unchanged otherwise. -/
def clean_paragraph (s : String) : String :=
  String.mk (pyStripL (subNonWord (subDots (subBrackets (pyStripL s.data)))))

/-- Embedding of `sanitize_filename` (translate.py lines 55-56):
`re.sub(r'[\\/:*?"<>|]', '', name).strip()`. -/
def sanitize_filename (s : String) : String :=
  pyStrip (String.mk (s.data.filter (fun c => !illegalFilenameChar c)))

/-- Python `text.split(sep)` for a one-character separator: every occurrence
of the separator ends a piece; `n` separators yield `n+1` pieces. -/
def splitOnCharList (sep : Char) : List Char → List Char → List String
  | [], acc => [String.mk acc.reverse]
  | c :: rest, acc =>
      if c = sep then String.mk acc.reverse :: splitOnCharList sep rest []
      else splitOnCharList sep rest (c :: acc)

/-- Python `sep.join` for a one-character separator. -/
def joinWithChar (sep : Char) : List String → String
  | [] => ""
  | [s] => s
  | s :: t :: rest => s ++ String.mk [sep] ++ joinWithChar sep (t :: rest)

/-! ## Sentence splitting (`split_text_by_sentence`) -/

/-- Source languages of `LANG_MAP` in `translate.py`. -/
inductive Lang
  | japanese
  | korean
  | english
  | auto
deriving DecidableEq

/-- Core of the Japanese regex split
`re.split(r'(?<=[。！？])\s*', text)`: cut after every `。！？`, keeping the
punctuation attached to the piece before the cut.  The `\s*` of the pattern
only consumes whitespace at the start of the following piece, which
`jpRegexSplit` removes afterwards; the two presentations agree because the
consumed whitespace contains no sentence-ending punctuation. -/
def jpSplitStruct : List Char → List Char → List String
  | [], acc => [String.mk acc.reverse]
  | c :: rest, acc =>
      if sentEnd c then String.mk (acc.reverse ++ [c]) :: jpSplitStruct rest []
      else jpSplitStruct rest (c :: acc)

/-- Holds when a piece ends with one of the sentence-ending punctuation
characters `。！？` (the punctuation stays attached to its sentence). -/
def endsWithSentEnd (s : String) : Bool :=
  match s.data.getLast? with
  | some c => sentEnd c
  | none => false

/-- Embedding of `re.split(r'(?<=[。！？])\s*', text)`: split after sentence-ending
punctuation and drop the whitespace that follows each cut. -/
def jpRegexSplit (s : String) : List String :=
  match jpSplitStruct s.data [] with
  | [] => []
  | h :: t => h :: t.map (fun p => String.mk (trimLead p.data))

/-- Embedding of `split_text_by_sentence` (translate.py lines 58-78).  `nagisaAvailable`
selects the `try` branch of the Japanese arm (`except ImportError` falls back
to a naive `。`-split that re-appends `。` to every non-blank chunk).
`kssSplit` and `nltkSplit` stand for the external `kss` and `nltk` sentence
splitters, which are external collaborators out of scope here (note that in
`translate.py` the English arm would in fact raise `NameError`, since `nltk`
is never imported). -/
def split_text_by_sentence (nagisaAvailable : Bool)
    (kssSplit nltkSplit : String → List String) (text : String) (lang : Lang) :
    List String :=
  let text := pyStrip text
  match lang with
  | Lang.japanese =>
      if nagisaAvailable then
        (jpRegexSplit text).filter (fun s => !(pyStrip s == ""))
      else
        ((splitOnCharList '。' text.data []).filter (fun s => !(pyStrip s == ""))).map
          (fun s => s ++ "。")
  | Lang.korean => kssSplit text
  | Lang.english => nltkSplit text
  | Lang.auto => [text]

/-- Japanese arm of `split_text_by_sentence` in `version/translate v1.1.py`
(lines 66-79): on success, strip each `。`-chunk and re-append `。`; on any
exception (`tinysegmenterOk = false`), return the whole (stripped) paragraph
as a single unit. -/
def split_text_by_sentence_v11_ja (tinysegmenterOk : Bool) (text : String) :
    List String :=
  let text := pyStrip text
  if tinysegmenterOk then
    (((splitOnCharList '。' text.data []).map pyStrip).filter (fun s => !(s == ""))).map
      (fun s => s ++ "。")
  else [text]

/-! ## Paragraph splitting (`re.split(r"\n\s*\n", content)`) -/

/-- One step of the scan for `\n\s*\n`: called at a `\n`, look at the maximal
whitespace run that follows; the greedy `\s*` followed by the final `\n` of
the pattern consumes that run up to and including its last newline (and
matches only if the run contains a newline at all). -/
def wsRunTaken (rest : List Char) : Nat :=
  let run := rest.takeWhile pyIsSpace
  run.length - (run.reverse.takeWhile (fun c => !(c = '\n'))).length

/-- Scanner for `re.split(r"\n\s*\n", content)` (translate.py line 100).
`fuel` bounds the recursion depth; every step consumes at least one character,
so `fuel = l.length` always suffices. -/
def splitParasAux (fuel : Nat) : List Char → List Char → List String
  | [], acc => [String.mk acc.reverse]
  | c :: rest, acc =>
      match fuel with
      | 0 => [String.mk (acc.reverse ++ c :: rest)]
      | fuel + 1 =>
          if c = '\n' && (rest.takeWhile pyIsSpace).contains '\n' then
            String.mk acc.reverse :: splitParasAux fuel (rest.drop (wsRunTaken rest)) []
          else
            splitParasAux fuel rest (c :: acc)

/-- Embedding of `raw_paragraphs = re.split(r"\n\s*\n", content)`. -/
def splitParagraphs (content : String) : List String :=
  splitParasAux content.data.length content.data []

/-! ## The per-paragraph retry loop (translate.py lines 121-136) -/

/-- Outcome of one call of the translation backend, after extraction of the
translated string (`result if isinstance(result, str) else
result.get("translatedText", "")`): either that string, or an exception. -/
inductive TLResult
  | ok (s : String)
  | exn
deriving DecidableEq

/-- One attempt of the loop body: an attempt succeeds when the call returns
and the extracted string is non-empty (`if not translated: raise`). -/
def attemptResult (o : Nat → TLResult) (k : Nat) : Option String :=
  match o k with
  | TLResult.ok s => if s = "" then none else some s
  | TLResult.exn => none

/-- The block written for one paragraph by `for attempt in range(3)`
(translate.py lines 121-136): the first successful attempt writes
`translated.strip() + "\n\n"` and breaks; after three failures the loop
writes `"[Translation failed]\n" + cleaned_para + "\n\n"`.  `merged` is the
unit sent to the translator; the written failure block uses `cleaned`. -/
def paraBlock (o : Nat → TLResult) (cleaned merged : String) : String :=
  match attemptResult o 0 with
  | some s => pyStrip s ++ "\n\n"
  | none =>
    match attemptResult o 1 with
    | some s => pyStrip s ++ "\n\n"
    | none =>
      match attemptResult o 2 with
      | some s => pyStrip s ++ "\n\n"
      | none => "[Translation failed]\n" ++ cleaned ++ "\n\n"

/-- Observable events of the retry loop: a backend invocation (with the text
sent), the fixed `asyncio.sleep(0.5)` delay, and the write of the paragraph's
output block. -/
inductive TLEvent
  | call (text : String)
  | sleep05
  | writeBlock (s : String)
deriving DecidableEq

/-- Event trace of the retry loop for one paragraph: a delay of 0.5 time
units is slept before each retry (`if attempt < 2: await asyncio.sleep(0.5)`),
never before the first attempt nor after the final failure. -/
def paraTrace (o : Nat → TLResult) (cleaned merged : String) : List TLEvent :=
  match attemptResult o 0 with
  | some s => [TLEvent.call merged, TLEvent.writeBlock (pyStrip s ++ "\n\n")]
  | none => TLEvent.call merged :: TLEvent.sleep05 ::
    (match attemptResult o 1 with
     | some s => [TLEvent.call merged, TLEvent.writeBlock (pyStrip s ++ "\n\n")]
     | none => TLEvent.call merged :: TLEvent.sleep05 ::
       (match attemptResult o 2 with
        | some s => [TLEvent.call merged, TLEvent.writeBlock (pyStrip s ++ "\n\n")]
        | none => [TLEvent.call merged,
                   TLEvent.writeBlock ("[Translation failed]\n" ++ cleaned ++ "\n\n")]))

/-- Number of backend invocations in a trace. -/
def countCalls (t : List TLEvent) : Nat :=
  t.countP (fun e => match e with | TLEvent.call _ => true | _ => false)

/-- Number of 0.5-time-unit delays in a trace. -/
def countSleeps (t : List TLEvent) : Nat :=
  t.countP (fun e => match e with | TLEvent.sleep05 => true | _ => false)

/-- Holds (as `true`) when every invocation that is not the first event of the trace is
immediately preceded by the fixed delay (i.e. a delay comes before each
retry). -/
def callFollowsSleep : List TLEvent → Bool
  | [] => true
  | [_] => true
  | a :: b :: rest =>
      (match b with
       | TLEvent.call _ => (match a with | TLEvent.sleep05 => true | _ => false)
       | _ => true) && callFollowsSleep (b :: rest)

/-! ## The per-file loop (`translate_file`, translate.py lines 98-136) -/

/-- Python `enumerate`. -/
def enumML (n : Nat) : List α → List (Nat × α)
  | [] => []
  | a :: l => (n, a) :: enumML (n + 1) l

/-- Embedding of `merged_para = " ".join(s.strip() for s in split_sentences if
is_meaningful(s))` (translate.py line 119). -/
def mergePara (sentences : List String) : String :=
  String.intercalate " " ((sentences.filter (fun s => is_meaningful s)).map pyStrip)

/-- The unit passed to the translator for one cleaned paragraph
(translate.py lines 118-119). -/
def paraUnit (splitter : String → List String) (cleaned : String) : String :=
  mergePara (splitter cleaned)

/-- Contribution of one raw paragraph to the output file: `None` when the
cleaned paragraph fails `is_meaningful` (the `continue` at line 116 — nothing
at all is written), otherwise exactly one block.  `splitter` stands for
`split_text_by_sentence · src_lang`. -/
def paraContribution (o : Nat → TLResult) (splitter : String → List String)
    (para : String) : Option String :=
  let cleaned := clean_paragraph para
  if is_meaningful cleaned then some (paraBlock o cleaned (paraUnit splitter cleaned))
  else none

/-- The ordered list of blocks written to the output file by `translate_file`
(translate.py lines 112-136); the oracle is indexed by the raw paragraph
index `i` of `enumerate(raw_paragraphs)` and by the attempt number. -/
def translate_file_blocks (oracle : Nat → Nat → TLResult)
    (splitter : String → List String) (content : String) : List String :=
  (enumML 0 (splitParagraphs content)).filterMap
    (fun ip => paraContribution (oracle ip.1) splitter ip.2)

/-- Full content of the output file written by `translate_file`. -/
def translate_file_output (oracle : Nat → Nat → TLResult)
    (splitter : String → List String) (content : String) : String :=
  String.join (translate_file_blocks oracle splitter content)

/-- Content of the `.pre.txt` preview file (translate.py lines 102-109): one
stripped sentence unit per line, for each meaningful cleaned paragraph. -/
def prepContent (splitter : String → List String) (content : String) : String :=
  String.join ((splitParagraphs content).filterMap (fun para =>
    let cleaned := clean_paragraph para
    if is_meaningful cleaned then
      some (String.join ((splitter cleaned).map (fun s => pyStrip s ++ "\n")))
    else none))

/-- Decidable equality for the `Except` results of the modelled fallible
operations, so that concrete runs can be checked by evaluation. -/
instance instDecEqExcept {ε α : Type} [DecidableEq ε] [DecidableEq α] :
    DecidableEq (Except ε α) := fun x y =>
  match x, y with
  | Except.error a, Except.error b =>
      if h : a = b then isTrue (by rw [h]) else isFalse (fun hc => h (by injection hc))
  | Except.error _, Except.ok _ => isFalse (fun hc => Except.noConfusion hc)
  | Except.ok _, Except.error _ => isFalse (fun hc => Except.noConfusion hc)
  | Except.ok a, Except.ok b =>
      if h : a = b then isTrue (by rw [h]) else isFalse (fun hc => h (by injection hc))

/-! ## Title resolution and output filenames (translate.py lines 82-93, 163-178) -/

/-- Embedding of `os.path.splitext(name)[0]`: drop the extension at the last `.`, where
leading dots of the name do not start an extension. -/
def splitextStem (name : String) : String :=
  let cs := name.data
  let lead := cs.takeWhile (fun c => c = '.')
  let rest := cs.drop lead.length
  if rest.contains '.' then
    String.mk (lead ++ ((rest.reverse.dropWhile (fun c => !(c = '.'))).drop 1).reverse)
  else name

/-- Embedding of `title_part = "-".join(stem.split("-")[1:]) if "-" in stem else stem`
(translate.py line 83). -/
def titlePart (stem : String) : String :=
  if stem.data.contains '-' then
    joinWithChar '-' ((splitOnCharList '-' stem.data []).drop 1)
  else stem

/-- The title used when title translation raises or returns an
empty/whitespace-only string: `translated_title = title_part or "Untitled"`
(translate.py line 92); Python's `or` takes the right operand exactly when
`title_part` is the empty string. -/
def fallbackTitle (stem : String) : String :=
  if titlePart stem = "" then "Untitled" else titlePart stem

/-- Embedding of `prefix = stem.split("-")[0] if "-" in stem else "0000"`
(translate.py lines 165, 174). -/
def filePrefixOf (stem : String) : String :=
  if stem.data.contains '-' then (splitOnCharList '-' stem.data []).headD ""
  else "0000"

/-- Embedding of the f-string `final_filename` assembly
(translate.py lines 166, 175). -/
def finalFilename (stem title : String) : String :=
  filePrefixOf stem ++ "-" ++ sanitize_filename title ++ ".txt"

/-- The final filename produced when title translation failed or returned an
empty result. -/
def finalFilenameOnFailure (stem : String) : String :=
  finalFilename stem (fallbackTitle stem)

/-! ## File-system effects of `main` in single-input mode
(translate.py lines 170-178) -/

/-- Python `str.replace(pat, repl)` (all non-overlapping occurrences, left to
right).  `fuel` bounds the recursion; each step consumes at least one
character, so the input length always suffices. -/
def replaceAllFuel (pat repl : List Char) : Nat → List Char → List Char
  | _, [] => []
  | 0, l => l
  | fuel + 1, c :: rest =>
      if pat.isPrefixOf (c :: rest) then
        repl ++ replaceAllFuel pat repl fuel (rest.drop (pat.length - 1))
      else c :: replaceAllFuel pat repl fuel rest

/-- Embedding of `prep_path = output_path.replace(".txt", ".pre.txt")`
(translate.py line 102). -/
def prePathOf (p : String) : String :=
  String.mk (replaceAllFuel ".txt".data ".pre.txt".data p.data.length p.data)

/-- The files written by one call of `translate_file`, as (path, content)
pairs.  With `return_translated_title=True` the function returns the title at
line 96, before any output file is opened, so it writes nothing at all. -/
def translateFileWrites (returnTitle : Bool) (oracle : Nat → Nat → TLResult)
    (splitter : String → List String) (content outputPath : String) :
    List (String × String) :=
  if returnTitle then []
  else [(prePathOf outputPath, prepContent splitter content),
        (outputPath, translate_file_output oracle splitter content)]

/-- Embedding of the single-input branch of `main` (translate.py lines 170-178): it calls
`translate_file(input_path, "TEMP.txt", …, return_translated_title=True)` —
which writes nothing — and then executes `os.rename("TEMP.txt", final_path)`,
which raises `FileNotFoundError` whenever no file named `TEMP.txt` was
written.  `titleResult` is the title string returned by the title pass. -/
def singleModeRun (oracle : Nat → Nat → TLResult)
    (splitter : String → List String) (titleResult : String)
    (inputName inputContent outFolder : String) :
    Except String (List (String × String)) :=
  let writes := translateFileWrites true oracle splitter inputContent "TEMP.txt"
  let stem := splitextStem inputName
  let fname := finalFilename stem titleResult
  if writes.any (fun w => w.1 = "TEMP.txt") then
    Except.ok ((writes.filter (fun w => !(w.1 == "TEMP.txt"))) ++
      [(outFolder ++ "/" ++ fname, translate_file_output oracle splitter inputContent)])
  else Except.error "FileNotFoundError"

/-! ## The completion-endpoint translator (`vllm_translator.py`) -/

/-- The literal marker searched by
`re.search(r"translation:\s*(.+)", result_text, re.DOTALL)`. -/
def markerChars : List Char := "translation:".data

/-- Leftmost occurrence of the marker: returns the text before the marker and
the remainder after it. -/
def findMarkerSplit : List Char → List Char → Option (List Char × List Char)
  | [], _ => none
  | c :: rest, pre =>
      if markerChars.isPrefixOf (c :: rest) then
        some (pre.reverse, (c :: rest).drop markerChars.length)
      else findMarkerSplit rest (c :: pre)

/-- Embedding of `\s*(.+)` with `re.DOTALL` applied to the remainder after the marker: the
greedy `\s*` takes the maximal whitespace prefix and backtracks just enough
for `(.+)` to be non-empty; there is no match when the remainder is empty. -/
def group1 : List Char → Option (List Char)
  | [] => none
  | c :: rest =>
      let tail := (c :: rest).dropWhile pyIsSpace
      if tail.isEmpty then some [(c :: rest).getLastD ' '] else some tail

/-- Extraction of the translated text from `choices[0].text`
(vllm_translator.py lines 36-41): the stripped regex group after the first
`translation:` marker when the regex matches, else the full completion
stripped.  (When the marker occurs with nothing after it, the regex has no
match — `(.+)` needs at least one character — and the code falls back to the
full completion.) -/
def vllmExtract (resultText : String) : String :=
  match findMarkerSplit resultText.data [] with
  | some (_, rem) =>
      match group1 rem with
      | some g => String.mk (pyStripL g)
      | none => pyStrip resultText
  | none => pyStrip resultText

/-- Embedding of `VLLMTranslator.translate` after the HTTP response arrives
(vllm_translator.py lines 34-43): on status 200 extract from
`choices[0].text`; otherwise raise `RuntimeError`. -/
def vllm_translate (statusCode : Nat) (choicesText : String) :
    Except String String :=
  if statusCode = 200 then Except.ok (vllmExtract choicesText)
  else Except.error "vLLM Translation Error"

/-! ## Encoding-fallback loaders (`mariantl.py` lines 22-30,
`deepl-tl.py` lines 39-47) -/

/-- Embedding of `[line.strip() for line in f if line.strip()]`: the stripped non-blank
lines of a decoded file. -/
def stripLines (content : String) : List String :=
  ((splitOnCharList '\n' content.data []).map pyStrip).filter (fun s => !(s == ""))

/-- Embedding of `read_file_with_encoding_fallback` (mariantl.py lines 22-30): try a UTF-8
decode, then a UTF-16 decode, and raise when both fail.  A file is modelled
by the outcome of each decode attempt (`none` = `UnicodeDecodeError`). -/
def read_file_with_encoding_fallback (utf8 utf16 : Option String) :
    Except String (List String) :=
  match utf8 with
  | some c => Except.ok (stripLines c)
  | none =>
      match utf16 with
      | some c => Except.ok (stripLines c)
      | none => Except.error "UnicodeDecodeError"

/-- The input-reading loop of `main` in `deepl-tl.py` (lines 39-47): the same
UTF-8-then-UTF-16 fallback, but when both decodes fail the loop just runs out
of encodings and the run continues with `paragraphs = []` — no error is
raised. -/
def deeplReadParagraphs (utf8 utf16 : Option String) :
    Except String (List String) :=
  match utf8 with
  | some c => Except.ok (stripLines c)
  | none =>
      match utf16 with
      | some c => Except.ok (stripLines c)
      | none => Except.ok []

/-! ## Spec-side definition for claim C3 -/

/-- The required script set named by the specification, per declared source
language: Hiragana/Katakana/Kanji for Japanese, Hangul for Korean.  This
definition follows the spec's words (not the code) and exists to be compared
with the code's `is_meaningful`. -/
def requiredScriptChar : Lang → Char → Bool
  | Lang.japanese, c =>
      (0x3041 ≤ codeOf c && codeOf c ≤ 0x3093) ||
      (0x30A1 ≤ codeOf c && codeOf c ≤ 0x30F3) ||
      (0x4E00 ≤ codeOf c && codeOf c ≤ 0x9FAF)
  | Lang.korean, c => 0xAC00 ≤ codeOf c && codeOf c ≤ 0xD7A3
  | _, _ => false

/-! ## Basic lemmas: strings, trimming, character classes -/

theorem mk_data (s : String) : String.mk s.data = s := by
  cases s
  rfl

theorem data_mk (l : List Char) : (String.mk l).data = l := rfl

theorem mk_append (a b : List Char) : String.mk a ++ String.mk b = String.mk (a ++ b) := rfl

theorem data_append (a b : String) : (a ++ b).data = a.data ++ b.data := by
  cases a
  cases b
  rfl

theorem dropWhile_dropWhile (p : α → Bool) (l : List α) :
    (l.dropWhile p).dropWhile p = l.dropWhile p := by
  induction l with
  | nil => rfl
  | cons c rest ih =>
      by_cases h : p c = true
      · simp [List.dropWhile_cons, h, ih]
      · simp [List.dropWhile_cons, h]

theorem length_dropWhile_le (p : α → Bool) (l : List α) :
    (l.dropWhile p).length ≤ l.length := by
  induction l with
  | nil => simp
  | cons c rest ih =>
      cases hpc : p c
      · simp [List.dropWhile_cons, hpc]
      · simp only [List.dropWhile_cons, hpc, if_true, List.length_cons]
        omega

theorem dropWhile_head_false (p : α → Bool) (c : α) (l : List α)
    (h : (c :: l).dropWhile p = c :: l) : p c = false := by
  cases hpc : p c
  · rfl
  · exfalso
    simp only [List.dropWhile_cons, hpc, if_true] at h
    have h1 := length_dropWhile_le p l
    rw [h] at h1
    simp only [List.length_cons] at h1
    omega

theorem dropWhile_exists_decomp (p : α → Bool) (l : List α) :
    ∃ u, (∀ c ∈ u, p c = true) ∧ u ++ l.dropWhile p = l := by
  induction l with
  | nil => exact ⟨[], by simp, rfl⟩
  | cons c rest ih =>
      cases hpc : p c
      · refine ⟨[], by simp, ?_⟩
        simp [List.dropWhile_cons, hpc]
      · obtain ⟨u, hu, he⟩ := ih
        refine ⟨c :: u, ?_, ?_⟩
        · intro x hx
          rcases List.mem_cons.mp hx with h | h
          · rw [h]
            exact hpc
          · exact hu x h
        · simp [List.dropWhile_cons, hpc, he]

theorem trimTrail_decomp (l : List Char) :
    ∃ u, (∀ c ∈ u, pyIsSpace c = true) ∧ trimTrail l ++ u = l := by
  obtain ⟨u, hu, he⟩ := dropWhile_exists_decomp pyIsSpace l.reverse
  refine ⟨u.reverse, fun c hc => hu c (List.mem_reverse.mp hc), ?_⟩
  have h2 := congrArg List.reverse he
  simpa [trimTrail, List.reverse_append] using h2

theorem trimTrail_idem (l : List Char) : trimTrail (trimTrail l) = trimTrail l := by
  unfold trimTrail
  rw [List.reverse_reverse, dropWhile_dropWhile]

theorem trimLead_idem (l : List Char) : trimLead (trimLead l) = trimLead l :=
  dropWhile_dropWhile pyIsSpace l

theorem trimLead_of_prefix_nodrop (l m : List Char) (hl : trimLead l = l)
    (hm : ∃ u, m ++ u = l) : trimLead m = m := by
  obtain ⟨u, hu⟩ := hm
  cases m with
  | nil => rfl
  | cons c t =>
      have hc : pyIsSpace c = false := by
        have hshape : l = c :: (t ++ u) := by rw [← hu]; simp
        rw [hshape] at hl
        exact dropWhile_head_false _ _ _ hl
      simp [trimLead, List.dropWhile_cons, hc]

theorem pyStripL_idem (l : List Char) : pyStripL (pyStripL l) = pyStripL l := by
  unfold pyStripL
  have h1 : trimLead (trimTrail (trimLead l)) = trimTrail (trimLead l) := by
    apply trimLead_of_prefix_nodrop (trimLead l)
    · exact trimLead_idem l
    · obtain ⟨u, _, he⟩ := trimTrail_decomp (trimLead l)
      exact ⟨u, he⟩
  rw [h1, trimTrail_idem]

theorem pyStrip_idem (s : String) : pyStrip (pyStrip s) = pyStrip s := by
  unfold pyStrip
  rw [data_mk, pyStripL_idem]

theorem any_dropWhile_eq (p q : α → Bool) (hpq : ∀ c, p c = true → q c = false) :
    ∀ l : List α, (l.dropWhile p).any q = l.any q := by
  intro l
  induction l with
  | nil => rfl
  | cons c rest ih =>
      cases hpc : p c
      · simp [List.dropWhile_cons, hpc]
      · simp [List.dropWhile_cons, hpc, ih, List.any_cons, hpq c hpc]

theorem any_reverse_eq (q : α → Bool) (l : List α) : l.reverse.any q = l.any q := by
  induction l with
  | nil => rfl
  | cons c rest ih =>
      simp [List.reverse_cons, List.any_append, List.any_cons, ih, Bool.or_comm]

theorem any_pyStripL (q : Char → Bool) (hq : ∀ c, pyIsSpace c = true → q c = false)
    (l : List Char) : (pyStripL l).any q = l.any q := by
  unfold pyStripL trimTrail trimLead
  rw [any_reverse_eq, any_dropWhile_eq pyIsSpace q hq, any_reverse_eq,
      any_dropWhile_eq pyIsSpace q hq]

theorem space_not_word (c : Char) (h : pyIsSpace c = true) : isWordChar c = false := by
  cases hw : isWordChar c
  · rfl
  · exfalso
    unfold pyIsSpace at h
    unfold isWordChar at hw
    simp only [Bool.or_eq_true, Bool.and_eq_true, decide_eq_true_eq] at h hw
    omega

theorem bracket_not_word (c : Char) (h : openBracketChar c = true) : isWordChar c = false := by
  cases hw : isWordChar c
  · rfl
  · exfalso
    unfold openBracketChar at h
    unfold isWordChar at hw
    simp only [Bool.or_eq_true, Bool.and_eq_true, decide_eq_true_eq] at h hw
    omega

theorem dot_not_word (c : Char) (h : dotChar c = true) : isWordChar c = false := by
  cases hw : isWordChar c
  · rfl
  · exfalso
    unfold dotChar at h
    unfold isWordChar at hw
    simp only [Bool.or_eq_true, Bool.and_eq_true, decide_eq_true_eq] at h hw
    omega

/-- Master description of `clean_paragraph`: the result is the stripped text
when any word character survives stripping, and the empty string otherwise. -/
theorem clean_paragraph_eq (s : String) :
    clean_paragraph s = if (pyStripL s.data).any isWordChar then pyStrip s else "" := by
  unfold clean_paragraph
  cases hw : (pyStripL s.data).any isWordChar with
  | true =>
      obtain ⟨c, hc, hcw⟩ := List.any_eq_true.mp hw
      have h1 : subBrackets (pyStripL s.data) = pyStripL s.data := by
        unfold subBrackets
        rw [if_neg]
        intro hall
        have hb := List.all_eq_true.mp hall c hc
        rw [bracket_not_word c hb] at hcw
        exact Bool.noConfusion hcw
      have h2 : subDots (pyStripL s.data) = pyStripL s.data := by
        unfold subDots
        rw [if_neg]
        intro hcond
        have hd := List.all_eq_true.mp (Bool.and_elim_right hcond) c hc
        rw [dot_not_word c hd] at hcw
        exact Bool.noConfusion hcw
      have h3 : subNonWord (pyStripL s.data) = pyStripL s.data := by
        unfold subNonWord
        rw [if_neg]
        intro hcond
        have hnw := List.all_eq_true.mp (Bool.and_elim_right hcond) c hc
        rw [hcw] at hnw
        exact Bool.noConfusion hnw
      rw [h1, h2, h3, pyStripL_idem, if_pos rfl]
      rfl
  | false =>
      have hforall : ∀ x ∈ pyStripL s.data, isWordChar x = false := by
        intro x hx
        cases hxw : isWordChar x
        · rfl
        · exfalso
          have : (pyStripL s.data).any isWordChar = true :=
            List.any_eq_true.mpr ⟨x, hx, hxw⟩
          rw [hw] at this
          exact Bool.noConfusion this
      rw [if_neg (by simp)]
      rcases hshape : pyStripL s.data with _ | ⟨c, t⟩
      · rfl
      · by_cases hb : (c :: t).all openBracketChar = true
        · unfold subBrackets
          rw [if_pos hb]
          rfl
        · have hsb : subBrackets (c :: t) = c :: t := by
            unfold subBrackets
            exact if_neg hb
          rw [hsb]
          by_cases hd : (c :: t).all dotChar = true
          · unfold subDots
            rw [if_pos (by simp [hd])]
            rfl
          · have hsd : subDots (c :: t) = c :: t := by
              unfold subDots
              rw [if_neg]
              intro hcond
              exact hd (Bool.and_elim_right hcond)
            rw [hsd]
            have hnw : (c :: t).all (fun x => !isWordChar x) = true := by
              rw [List.all_eq_true]
              intro x hx
              have := hforall x (by rw [hshape]; exact hx)
              simp [this]
            unfold subNonWord
            rw [if_pos (by simp [hnw])]
            rfl

theorem clean_paragraph_of_word (s : String) (h : s.data.any isWordChar = true) :
    clean_paragraph s = pyStrip s := by
  have h2 : (pyStripL s.data).any isWordChar = true := by
    rw [any_pyStripL isWordChar space_not_word s.data]
    exact h
  rw [clean_paragraph_eq s, h2]
  simp

theorem clean_paragraph_of_noword (s : String) (h : s.data.any isWordChar = false) :
    clean_paragraph s = "" := by
  have h2 : (pyStripL s.data).any isWordChar = false := by
    rw [any_pyStripL isWordChar space_not_word s.data]
    exact h
  rw [clean_paragraph_eq s, h2]
  simp

theorem any_word_false_of_all (l : List Char) (q : Char → Bool)
    (hq : ∀ c, q c = true → isWordChar c = false)
    (hall : l.all q = true) : l.any isWordChar = false := by
  cases ha : l.any isWordChar
  · rfl
  · exfalso
    obtain ⟨c, hc, hcw⟩ := List.any_eq_true.mp ha
    have hb := List.all_eq_true.mp hall c hc
    rw [hq c hb] at hcw
    exact Bool.noConfusion hcw

/-! ## Claim C10 -/

/-- C10: `clean_paragraph` is idempotent, its result never has leading or
trailing whitespace, and it maps the empty string to the empty string; a
paragraph consisting entirely of opening quotation/bracket characters,
entirely of period/ellipsis characters, or entirely of non-word characters is
mapped to the empty string, while any string containing a word character
(such strings match none of those shapes) is returned merely trimmed. -/
theorem c10_clean_paragraph_algebra : ∀ s : String,
    clean_paragraph (clean_paragraph s) = clean_paragraph s ∧
    pyStrip (clean_paragraph s) = clean_paragraph s ∧
    clean_paragraph "" = "" ∧
    (¬ s.data = [] → s.data.all openBracketChar = true → clean_paragraph s = "") ∧
    (¬ s.data = [] → s.data.all dotChar = true → clean_paragraph s = "") ∧
    (¬ s.data = [] → s.data.all (fun c => !isWordChar c) = true → clean_paragraph s = "") ∧
    (s.data.any isWordChar = true → clean_paragraph s = pyStrip s) := by
  intro s
  have hempty : clean_paragraph "" = "" := by decide
  refine ⟨?_, ?_, hempty, ?_, ?_, ?_, fun h => clean_paragraph_of_word s h⟩
  · cases hw : s.data.any isWordChar
    · rw [clean_paragraph_of_noword s hw]
      exact hempty
    · rw [clean_paragraph_of_word s hw]
      have h3 : (pyStrip s).data.any isWordChar = true := by
        unfold pyStrip
        rw [data_mk, any_pyStripL isWordChar space_not_word s.data]
        exact hw
      rw [clean_paragraph_of_word (pyStrip s) h3]
      exact pyStrip_idem s
  · cases hw : s.data.any isWordChar
    · rw [clean_paragraph_of_noword s hw]
      rfl
    · rw [clean_paragraph_of_word s hw]
      exact pyStrip_idem s
  · intro _ hall
    exact clean_paragraph_of_noword s
      (any_word_false_of_all s.data openBracketChar bracket_not_word hall)
  · intro _ hall
    exact clean_paragraph_of_noword s
      (any_word_false_of_all s.data dotChar dot_not_word hall)
  · intro _ hall
    refine clean_paragraph_of_noword s
      (any_word_false_of_all s.data (fun c => !isWordChar c) ?_ hall)
    intro c hc
    cases hcw : isWordChar c
    · rfl
    · simp only [hcw, Bool.not_true] at hc
      exact hc.symm

/-- Witness for C10 at concrete inputs: idempotence, the three blanked
shapes, and the trimmed-verbatim case. -/
theorem c10_clean_paragraph_algebra_witness :
    clean_paragraph (clean_paragraph "あ…x ") = clean_paragraph "あ…x " ∧
    clean_paragraph "「『（" = "" ∧
    clean_paragraph ".…。" = "" ∧
    clean_paragraph "?!" = "" ∧
    clean_paragraph " abc " = pyStrip " abc " :=
  ⟨(c10_clean_paragraph_algebra "あ…x ").1,
   (c10_clean_paragraph_algebra "「『（").2.2.2.1 (by decide) (by decide),
   (c10_clean_paragraph_algebra ".…。").2.2.2.2.1 (by decide) (by decide),
   (c10_clean_paragraph_algebra "?!").2.2.2.2.2.1 (by decide) (by decide),
   (c10_clean_paragraph_algebra " abc ").2.2.2.2.2.2 (by decide)⟩

/-! ## Claim C1 -/

/-- C1: for every paragraph unit, the translator is invoked at most 3 times;
the fixed 0.5-time-unit delay is slept exactly before each retry (the number
of sleeps is the number of calls minus one, and every call other than the
first event is immediately preceded by a sleep); the trace ends with the
write of the paragraph's block; if all 3 attempts fail the block is exactly
the literal failure marker line followed by the original cleaned paragraph
text, verbatim; and the first successful non-empty result (at attempt `k`,
after exactly `k + 1` invocations) ends the retries and its stripped text is
written instead. -/
theorem c1_retry_bounded_and_failure_block :
    ∀ (o : Nat → TLResult) (cleaned merged : String),
    countCalls (paraTrace o cleaned merged) ≤ 3 ∧
    countSleeps (paraTrace o cleaned merged) + 1 = countCalls (paraTrace o cleaned merged) ∧
    callFollowsSleep (paraTrace o cleaned merged) = true ∧
    (∃ pre, paraTrace o cleaned merged
       = pre ++ [TLEvent.writeBlock (paraBlock o cleaned merged)]) ∧
    (attemptResult o 0 = none → attemptResult o 1 = none → attemptResult o 2 = none →
       paraBlock o cleaned merged = "[Translation failed]\n" ++ cleaned ++ "\n\n" ∧
       countCalls (paraTrace o cleaned merged) = 3) ∧
    (∀ k s, k < 3 → attemptResult o k = some s → (∀ j, j < k → attemptResult o j = none) →
       paraBlock o cleaned merged = pyStrip s ++ "\n\n" ∧
       countCalls (paraTrace o cleaned merged) = k + 1) := by
  intro o cleaned merged
  cases h0 : attemptResult o 0 with
  | some s0 =>
      have htrace : paraTrace o cleaned merged
          = [TLEvent.call merged, TLEvent.writeBlock (pyStrip s0 ++ "\n\n")] := by
        unfold paraTrace
        rw [h0]
      have hblock : paraBlock o cleaned merged = pyStrip s0 ++ "\n\n" := by
        unfold paraBlock
        rw [h0]
      refine ⟨?_, ?_, ?_, ⟨[TLEvent.call merged], by rw [htrace, hblock]; rfl⟩, ?_, ?_⟩
      · rw [htrace]
        simp [countCalls, List.countP_cons, List.countP_nil]
      · rw [htrace]
        simp [countCalls, countSleeps, List.countP_cons, List.countP_nil]
      · rw [htrace]
        simp [callFollowsSleep]
      · intro hn0 _ _
        exact Option.noConfusion hn0
      · intro k s hk hks hprev
        interval_cases k
        · rw [h0] at hks
          injection hks with hs
          subst hs
          refine ⟨hblock, ?_⟩
          rw [htrace]
          simp [countCalls, List.countP_cons, List.countP_nil]
        · have hj := hprev 0 (by omega)
          rw [h0] at hj
          exact Option.noConfusion hj
        · have hj := hprev 0 (by omega)
          rw [h0] at hj
          exact Option.noConfusion hj
  | none =>
    cases h1 : attemptResult o 1 with
    | some s1 =>
        have htrace : paraTrace o cleaned merged
            = [TLEvent.call merged, TLEvent.sleep05, TLEvent.call merged,
               TLEvent.writeBlock (pyStrip s1 ++ "\n\n")] := by
          unfold paraTrace
          rw [h0, h1]
        have hblock : paraBlock o cleaned merged = pyStrip s1 ++ "\n\n" := by
          unfold paraBlock
          rw [h0, h1]
        refine ⟨?_, ?_, ?_,
          ⟨[TLEvent.call merged, TLEvent.sleep05, TLEvent.call merged],
            by rw [htrace, hblock]; rfl⟩, ?_, ?_⟩
        · rw [htrace]
          simp [countCalls, List.countP_cons, List.countP_nil]
        · rw [htrace]
          simp [countCalls, countSleeps, List.countP_cons, List.countP_nil]
        · rw [htrace]
          simp [callFollowsSleep]
        · intro _ hn1 _
          exact Option.noConfusion hn1
        · intro k s hk hks hprev
          interval_cases k
          · rw [h0] at hks
            exact Option.noConfusion hks
          · rw [h1] at hks
            injection hks with hs
            subst hs
            refine ⟨hblock, ?_⟩
            rw [htrace]
            simp [countCalls, List.countP_cons, List.countP_nil]
          · have hj := hprev 1 (by omega)
            rw [h1] at hj
            exact Option.noConfusion hj
    | none =>
      cases h2 : attemptResult o 2 with
      | some s2 =>
          have htrace : paraTrace o cleaned merged
              = [TLEvent.call merged, TLEvent.sleep05, TLEvent.call merged,
                 TLEvent.sleep05, TLEvent.call merged,
                 TLEvent.writeBlock (pyStrip s2 ++ "\n\n")] := by
            unfold paraTrace
            rw [h0, h1, h2]
          have hblock : paraBlock o cleaned merged = pyStrip s2 ++ "\n\n" := by
            unfold paraBlock
            rw [h0, h1, h2]
          refine ⟨?_, ?_, ?_,
            ⟨[TLEvent.call merged, TLEvent.sleep05, TLEvent.call merged,
              TLEvent.sleep05, TLEvent.call merged], by rw [htrace, hblock]; rfl⟩, ?_, ?_⟩
          · rw [htrace]
            simp [countCalls, List.countP_cons, List.countP_nil]
          · rw [htrace]
            simp [countCalls, countSleeps, List.countP_cons, List.countP_nil]
          · rw [htrace]
            simp [callFollowsSleep]
          · intro _ _ hn2
            exact Option.noConfusion hn2
          · intro k s hk hks hprev
            interval_cases k
            · rw [h0] at hks
              exact Option.noConfusion hks
            · rw [h1] at hks
              exact Option.noConfusion hks
            · rw [h2] at hks
              injection hks with hs
              subst hs
              refine ⟨hblock, ?_⟩
              rw [htrace]
              simp [countCalls, List.countP_cons, List.countP_nil]
      | none =>
          have htrace : paraTrace o cleaned merged
              = [TLEvent.call merged, TLEvent.sleep05, TLEvent.call merged,
                 TLEvent.sleep05, TLEvent.call merged,
                 TLEvent.writeBlock ("[Translation failed]\n" ++ cleaned ++ "\n\n")] := by
            unfold paraTrace
            rw [h0, h1, h2]
          have hblock : paraBlock o cleaned merged
              = "[Translation failed]\n" ++ cleaned ++ "\n\n" := by
            unfold paraBlock
            rw [h0, h1, h2]
          refine ⟨?_, ?_, ?_,
            ⟨[TLEvent.call merged, TLEvent.sleep05, TLEvent.call merged,
              TLEvent.sleep05, TLEvent.call merged], by rw [htrace, hblock]; rfl⟩, ?_, ?_⟩
          · rw [htrace]
            simp [countCalls, List.countP_cons, List.countP_nil]
          · rw [htrace]
            simp [countCalls, countSleeps, List.countP_cons, List.countP_nil]
          · rw [htrace]
            simp [callFollowsSleep]
          · intro _ _ _
            refine ⟨hblock, ?_⟩
            rw [htrace]
            simp [countCalls, List.countP_cons, List.countP_nil]
          · intro k s hk hks hprev
            interval_cases k
            · rw [h0] at hks
              exact Option.noConfusion hks
            · rw [h1] at hks
              exact Option.noConfusion hks
            · rw [h2] at hks
              exact Option.noConfusion hks

/-- Witness for C1: a concrete always-failing oracle yields the failure
block after 3 calls, and a concrete oracle succeeding at the second attempt
yields the stripped success block after 2 calls. -/
theorem c1_retry_bounded_and_failure_block_witness :
    paraBlock (fun _ => TLResult.exn) "原文テキスト" "原文テキスト"
      = "[Translation failed]\n原文テキスト\n\n" ∧
    countCalls (paraTrace (fun _ => TLResult.exn) "原文テキスト" "原文テキスト") = 3 ∧
    paraBlock (fun k => if k = 1 then TLResult.ok " Hi " else TLResult.exn) "原" "原"
      = pyStrip " Hi " ++ "\n\n" ∧
    countCalls (paraTrace (fun k => if k = 1 then TLResult.ok " Hi " else TLResult.exn) "原" "原")
      = 2 := by
  have hfail := (c1_retry_bounded_and_failure_block (fun _ => TLResult.exn)
    "原文テキスト" "原文テキスト").2.2.2.2.1 rfl rfl rfl
  have hsucc := (c1_retry_bounded_and_failure_block
    (fun k => if k = 1 then TLResult.ok " Hi " else TLResult.exn) "原" "原").2.2.2.2.2
    1 " Hi " (by decide) (by decide)
    (by
      intro j hj
      have hj0 : j = 0 := by omega
      subst hj0
      decide)
  exact ⟨hfail.1, hfail.2, hsucc.1, hsucc.2⟩

/-! ## Claim C2 -/

theorem filterMap_paraContribution (oracle : Nat → Nat → TLResult)
    (splitter : String → List String) :
    ∀ l : List (Nat × String),
      l.filterMap (fun ip => paraContribution (oracle ip.1) splitter ip.2)
        = (l.filter (fun ip => is_meaningful (clean_paragraph ip.2))).map
            (fun ip => paraBlock (oracle ip.1) (clean_paragraph ip.2)
              (paraUnit splitter (clean_paragraph ip.2))) := by
  intro l
  induction l with
  | nil => rfl
  | cons a t ih =>
      cases hm : is_meaningful (clean_paragraph a.2)
      · have hhead : paraContribution (oracle a.1) splitter a.2 = none := by
          simp [paraContribution, hm]
        rw [List.filterMap_cons, hhead, List.filter_cons, hm]
        simpa using ih
      · have hhead : paraContribution (oracle a.1) splitter a.2
            = some (paraBlock (oracle a.1) (clean_paragraph a.2)
                (paraUnit splitter (clean_paragraph a.2))) := by
          simp [paraContribution, hm]
        rw [List.filterMap_cons, hhead, List.filter_cons, hm]
        simpa using ih

theorem enumML_filter_snd_length (q : α → Bool) :
    ∀ (l : List α) (n : Nat),
      ((enumML n l).filter (fun ip => q ip.2)).length = l.countP q := by
  intro l
  induction l with
  | nil => intro n; rfl
  | cons a t ih =>
      intro n
      cases hqa : q a
      · simp [enumML, List.filter_cons, hqa, ih, List.countP_cons]
      · simp [enumML, List.filter_cons, hqa, ih, List.countP_cons]

/-- C2: the output file contains exactly one block per cleaned paragraph that
passes the meaningfulness filter, in input order (the blocks are the in-order
image of the surviving paragraphs); a paragraph failing the filter
contributes nothing at all, so the number of blocks equals the number of
surviving paragraphs. -/
theorem c2_one_block_per_surviving_paragraph :
    ∀ (oracle : Nat → Nat → TLResult) (splitter : String → List String) (content : String),
    translate_file_blocks oracle splitter content
      = ((enumML 0 (splitParagraphs content)).filter
          (fun ip => is_meaningful (clean_paragraph ip.2))).map
          (fun ip => paraBlock (oracle ip.1) (clean_paragraph ip.2)
            (paraUnit splitter (clean_paragraph ip.2))) ∧
    (translate_file_blocks oracle splitter content).length
      = ((splitParagraphs content).map clean_paragraph).countP (fun cp => is_meaningful cp) ∧
    translate_file_output oracle splitter content
      = String.join (translate_file_blocks oracle splitter content) := by
  intro oracle splitter content
  have h1 : translate_file_blocks oracle splitter content
      = ((enumML 0 (splitParagraphs content)).filter
          (fun ip => is_meaningful (clean_paragraph ip.2))).map
          (fun ip => paraBlock (oracle ip.1) (clean_paragraph ip.2)
            (paraUnit splitter (clean_paragraph ip.2))) := by
    unfold translate_file_blocks
    exact filterMap_paraContribution oracle splitter (enumML 0 (splitParagraphs content))
  refine ⟨h1, ?_, rfl⟩
  have h2 := enumML_filter_snd_length (fun para => is_meaningful (clean_paragraph para))
    (splitParagraphs content) 0
  rw [h1, List.length_map, List.countP_map]
  simpa [Function.comp] using h2

/-! ## Claim C9 -/

/-- C9: the pipeline is deterministic — two runs on the same input content
with pointwise-equal translator oracles and pointwise-equal sentence
splitters produce byte-identical output files (and byte-identical `.pre.txt`
preview files); the pipeline itself introduces no nondeterminism. -/
theorem c9_pipeline_deterministic :
    ∀ (content : String) (o1 o2 : Nat → Nat → TLResult) (sp1 sp2 : String → List String),
    (∀ i k, o1 i k = o2 i k) → (∀ s, sp1 s = sp2 s) →
    translate_file_output o1 sp1 content = translate_file_output o2 sp2 content ∧
    prepContent sp1 content = prepContent sp2 content := by
  intro content o1 o2 sp1 sp2 ho hsp
  have ho2 : o1 = o2 := funext fun i => funext fun k => ho i k
  have hsp2 : sp1 = sp2 := funext hsp
  rw [ho2, hsp2]
  exact ⟨rfl, rfl⟩

/-- Witness for C9: two syntactically different but pointwise-equal oracles
and splitters give byte-identical outputs on a concrete document. -/
theorem c9_pipeline_deterministic_witness :
    translate_file_output (fun _ _ => TLResult.ok "x") (fun s => [s]) "あ。\n\nい。"
      = translate_file_output (fun _ _ => TLResult.ok ("x" ++ "")) (fun s => [s] ++ []) "あ。\n\nい。" ∧
    prepContent (fun s => [s]) "あ。\n\nい。"
      = prepContent (fun s => [s] ++ []) "あ。\n\nい。" :=
  c9_pipeline_deterministic "あ。\n\nい。" (fun _ _ => TLResult.ok "x")
    (fun _ _ => TLResult.ok ("x" ++ "")) (fun s => [s]) (fun s => [s] ++ [])
    (fun i k => rfl) (fun s => rfl)

/-! ## Claim C3 -/

theorem any_false_iff (q : α → Bool) (l : List α) :
    l.any q = false ↔ ∀ c ∈ l, q c = false := by
  constructor
  · intro h c hc
    cases hqc : q c
    · rfl
    · exfalso
      rw [List.any_eq_true.mpr ⟨c, hc, hqc⟩] at h
      exact Bool.noConfusion h
  · intro h
    cases ha : l.any q
    · rfl
    · obtain ⟨c, hc, hqc⟩ := List.any_eq_true.mp ha
      rw [h c hc] at hqc
      exact Bool.noConfusion hqc

/-- C3 (amended): a cleaned paragraph is discarded (contributes no output
block) if and only if it contains no character of one fixed combined script
set — Hiragana, Katakana, CJK ideographs, Hangul and ASCII letters —
regardless of the declared source language (the filter takes no language
argument); the v1.1/backup variants use the same set without the Latin
letters.  The claim's per-language required-script reading is false: see the
counterexample. -/
theorem c3_discard_iff_no_script_char :
    ∀ (o : Nat → TLResult) (splitter : String → List String) (para : String),
    (paraContribution o splitter para = none ↔
      ∀ c ∈ (clean_paragraph para).data, isScriptChar c = false) ∧
    (∀ s : String, is_meaningful_v11 s = false ↔ ∀ c ∈ s.data, isScriptCharV11 c = false) := by
  intro o splitter para
  constructor
  · simp only [paraContribution]
    cases hm : is_meaningful (clean_paragraph para)
    · simp only [Bool.false_eq_true, if_false]
      constructor
      · intro _
        unfold is_meaningful at hm
        exact (any_false_iff _ _).mp hm
      · intro _
        trivial
    · simp only [if_true]
      constructor
      · intro h
        exact Option.noConfusion h
      · intro hall
        exfalso
        unfold is_meaningful at hm
        rw [(any_false_iff _ _).mpr hall] at hm
        exact Bool.noConfusion hm
  · intro s
    unfold is_meaningful_v11
    exact any_false_iff _ _

/-- Witness for C3 (amended): a pure-ellipsis paragraph is discarded. -/
theorem c3_discard_iff_no_script_char_witness :
    paraContribution (fun _ => TLResult.exn) (fun s => [s]) "……。" = none :=
  (c3_discard_iff_no_script_char (fun _ => TLResult.exn) (fun s => [s]) "……。").1.mpr
    (by decide)

/-- Counterexample to C3 as stated: with declared source language Japanese,
the paragraph "abc" contains no character of the required script set for
Japanese (Hiragana/Katakana/Kanji), so by the claim it must be discarded; but
`is_meaningful` is language-independent and also accepts ASCII letters, so
the pipeline emits a block for it (here with the actual Japanese splitter of
`translate.py`). -/
theorem c3_counterexample :
    is_meaningful "abc" = true ∧
    "abc".data.all (fun c => !requiredScriptChar Lang.japanese c) = true ∧
    translate_file_blocks (fun _ _ => TLResult.ok "x")
      (fun s => split_text_by_sentence true (fun t => [t]) (fun t => [t]) s Lang.japanese)
      "abc" = ["x\n\n"] := by
  decide

/-! ## Claim C4 -/

theorem splitOnCharList_ne_nil (sep : Char) :
    ∀ (l acc : List Char), ¬ splitOnCharList sep l acc = [] := by
  intro l
  induction l with
  | nil =>
      intro acc h
      exact List.noConfusion h
  | cons c rest ih =>
      intro acc
      by_cases hc : c = sep
      · simp [splitOnCharList, hc]
      · simp only [splitOnCharList, if_neg hc]
        exact ih (c :: acc)

theorem joinWithChar_cons_cons (sep : Char) (s t : String) (rest : List String) :
    joinWithChar sep (s :: t :: rest) = s ++ String.mk [sep] ++ joinWithChar sep (t :: rest) :=
  rfl

theorem joinWithChar_splitOnCharList (sep : Char) :
    ∀ (l acc : List Char),
      joinWithChar sep (splitOnCharList sep l acc) = String.mk (acc.reverse ++ l) := by
  intro l
  induction l with
  | nil =>
      intro acc
      simp [splitOnCharList, joinWithChar]
  | cons c rest ih =>
      intro acc
      by_cases hc : c = sep
      · subst hc
        simp only [splitOnCharList, eq_self_iff_true, if_true]
        rcases hsp : splitOnCharList c rest [] with _ | ⟨y, t⟩
        · exact absurd hsp (splitOnCharList_ne_nil c rest [])
        · have ihr := ih []
          rw [hsp] at ihr
          simp only [List.reverse_nil, List.nil_append] at ihr
          rw [joinWithChar_cons_cons, ihr, mk_append, mk_append]
          congr 1
          simp
      · simp only [splitOnCharList, if_neg hc]
        rw [ih (c :: acc)]
        congr 1
        simp

theorem splitOnCharList_len_two (sep : Char) :
    ∀ (l acc : List Char), sep ∈ l → 2 ≤ (splitOnCharList sep l acc).length := by
  intro l
  induction l with
  | nil =>
      intro acc h
      exact absurd h (List.not_mem_nil sep)
  | cons c rest ih =>
      intro acc hmem
      by_cases hc : c = sep
      · simp only [splitOnCharList, if_pos hc, List.length_cons]
        have h1 : ¬ splitOnCharList sep rest [] = [] := splitOnCharList_ne_nil sep rest []
        rcases hsp : splitOnCharList sep rest [] with _ | ⟨y, t⟩
        · exact absurd hsp h1
        · simp
      · simp only [splitOnCharList, if_neg hc]
        apply ih
        rcases List.mem_cons.mp hmem with h | h
        · exact absurd h.symm hc
        · exact h

/-- C4 (amended): on title-translation failure or empty result, the final
filename is the preserved prefix, a dash, the **sanitized** fallback title
(the post-first-dash segment, or the whole stem without a dash, or
"Untitled" when that segment is empty — with the filename-illegal characters
`\/:*?"<>|` removed and whitespace trimmed), and ".txt"; "0000" is the prefix
when the stem has no dash, and prefix plus dash plus post-dash segment
reassemble the original stem. -/
theorem c4_title_fallback_amended : ∀ stem : String,
    finalFilenameOnFailure stem
      = filePrefixOf stem ++ "-" ++ sanitize_filename (fallbackTitle stem) ++ ".txt" ∧
    (stem.data.contains '-' = false → filePrefixOf stem = "0000" ∧ titlePart stem = stem) ∧
    (titlePart stem = "" → fallbackTitle stem = "Untitled") ∧
    (¬ titlePart stem = "" → fallbackTitle stem = titlePart stem) ∧
    (stem.data.contains '-' = true → filePrefixOf stem ++ "-" ++ titlePart stem = stem) := by
  intro stem
  refine ⟨rfl, ?_, ?_, ?_, ?_⟩
  · intro h
    have hnc : ¬ stem.data.contains '-' = true := by
      rw [h]
      decide
    constructor
    · unfold filePrefixOf
      rw [if_neg hnc]
    · unfold titlePart
      rw [if_neg hnc]
  · intro h
    unfold fallbackTitle
    rw [if_pos h]
  · intro h
    unfold fallbackTitle
    rw [if_neg h]
  · intro h
    have hmem : '-' ∈ stem.data := List.elem_iff.mp h
    have hlen := splitOnCharList_len_two '-' stem.data [] hmem
    have hjoin := joinWithChar_splitOnCharList '-' stem.data []
    simp only [List.reverse_nil, List.nil_append] at hjoin
    rw [mk_data] at hjoin
    unfold filePrefixOf titlePart
    rw [if_pos h, if_pos h]
    rcases hsp : splitOnCharList '-' stem.data [] with _ | ⟨p, rest⟩
    · exact absurd hsp (splitOnCharList_ne_nil '-' stem.data [])
    · rcases rest with _ | ⟨q, t⟩
      · rw [hsp] at hlen
        simp at hlen
      · rw [hsp] at hjoin
        rw [joinWithChar_cons_cons] at hjoin
        simpa using hjoin

/-- Witness for C4 (amended) at concrete stems: missing-dash prefix
defaulting, the "Untitled" fallback, and stem reassembly. -/
theorem c4_title_fallback_amended_witness :
    (filePrefixOf "abc" = "0000" ∧ titlePart "abc" = "abc") ∧
    fallbackTitle "001-" = "Untitled" ∧
    filePrefixOf "001-異世界" ++ "-" ++ titlePart "001-異世界" = "001-異世界" :=
  ⟨(c4_title_fallback_amended "abc").2.1 (by decide),
   (c4_title_fallback_amended "001-").2.2.1 (by decide),
   (c4_title_fallback_amended "001-異世界").2.2.2.2 (by decide)⟩

/-- Counterexample to C4 as stated: for stem "001-a?b" the fallback title is
the post-dash segment "a?b", but the final filename is "001-ab.txt" — the
"?" was removed by `sanitize_filename` — and not prefix ++ "-" ++ segment ++
".txt" as the claim requires. -/
theorem c4_counterexample :
    finalFilenameOnFailure "001-a?b" = "001-ab.txt" ∧
    titlePart "001-a?b" = "a?b" ∧
    ¬ finalFilenameOnFailure "001-a?b"
        = filePrefixOf "001-a?b" ++ "-" ++ titlePart "001-a?b" ++ ".txt" := by
  decide

/-! ## Claim C5 -/

/-- C5 (the code at the failing point): in single-input mode, `main` calls
`translate_file` only with `return_translated_title=True`, which returns
before opening any output file and therefore writes nothing; the following
`os.rename("TEMP.txt", final_path)` then fails for every input, so the
output folder never receives the translated file the claim describes. -/
theorem c5_single_mode_never_writes_output :
    ∀ (oracle : Nat → Nat → TLResult) (splitter : String → List String)
      (titleResult inputName inputContent outFolder : String),
    singleModeRun oracle splitter titleResult inputName inputContent outFolder
      = Except.error "FileNotFoundError" ∧
    translateFileWrites true oracle splitter inputContent "TEMP.txt" = [] := by
  intro oracle splitter titleResult inputName inputContent outFolder
  constructor
  · unfold singleModeRun translateFileWrites
    simp
  · rfl

/-! ## Claim C6 -/

theorem isPrefixOf_append : ∀ (p l : List Char), p.isPrefixOf l = true → l = p ++ l.drop p.length := by
  intro p
  induction p with
  | nil =>
      intro l _
      rfl
  | cons a p ih =>
      intro l h
      cases l with
      | nil => exact absurd h (by simp [List.isPrefixOf])
      | cons b l2 =>
          simp only [List.isPrefixOf, Bool.and_eq_true, beq_iff_eq] at h
          obtain ⟨hab, hp⟩ := h
          subst hab
          have hrec := ih l2 hp
          show a :: l2 = (a :: p) ++ (a :: l2).drop (a :: p).length
          have hd : (a :: l2).drop (a :: p).length = l2.drop p.length := by simp
          rw [hd, List.cons_append, ← hrec]

theorem findMarkerSplit_sound :
    ∀ (l pre p r : List Char), findMarkerSplit l pre = some (p, r) →
      p ++ markerChars ++ r = pre.reverse ++ l := by
  intro l
  induction l with
  | nil =>
      intro pre p r h
      exact Option.noConfusion h
  | cons c rest ih =>
      intro pre p r h
      by_cases hpf : markerChars.isPrefixOf (c :: rest) = true
      · simp only [findMarkerSplit, hpf, if_true] at h
        injection h with hpr
        rw [Prod.mk.injEq] at hpr
        obtain ⟨hp, hr⟩ := hpr
        subst hp
        subst hr
        have hpref := isPrefixOf_append markerChars (c :: rest) hpf
        rw [List.append_assoc, ← hpref]
      · simp only [findMarkerSplit, hpf, if_false] at h
        have hrec := ih (c :: pre) p r h
        rw [hrec, List.reverse_cons, List.append_assoc]
        rfl

theorem dropWhile_nil_all (p : α → Bool) :
    ∀ l : List α, l.dropWhile p = [] → ∀ c ∈ l, p c = true := by
  intro l
  induction l with
  | nil =>
      intro _ c hc
      exact absurd hc (List.not_mem_nil c)
  | cons a t ih =>
      intro h c hc
      cases hpa : p a
      · rw [List.dropWhile_cons, hpa] at h
        simp at h
      · rcases List.mem_cons.mp hc with h1 | h1
        · rw [h1]
          exact hpa
        · rw [List.dropWhile_cons, hpa] at h
          simp only [if_true] at h
          exact ih h c h1

theorem getLastD_mem : ∀ (rest : List Char) (c d : Char),
    (c :: rest).getLastD d ∈ c :: rest := by
  intro rest
  induction rest with
  | nil =>
      intro c d
      simp [List.getLastD]
  | cons r rs ih =>
      intro c d
      rw [List.getLastD_cons]
      exact List.mem_cons_of_mem c (ih r c)

theorem group1_strip (rem : List Char) (h : ¬ rem = []) :
    ∃ g, group1 rem = some g ∧ pyStripL g = pyStripL rem := by
  cases rem with
  | nil => exact absurd rfl h
  | cons c rest =>
      by_cases ht : ((c :: rest).dropWhile pyIsSpace).isEmpty = true
      · have hnil : (c :: rest).dropWhile pyIsSpace = [] := by
          cases hd : (c :: rest).dropWhile pyIsSpace with
          | nil => rfl
          | cons x xs =>
              rw [hd] at ht
              simp [List.isEmpty] at ht
        have hall := dropWhile_nil_all pyIsSpace (c :: rest) hnil
        refine ⟨[(c :: rest).getLastD ' '], ?_, ?_⟩
        · simp only [group1, ht, if_true]
        · have hws : pyIsSpace ((c :: rest).getLastD ' ') = true :=
            hall _ (getLastD_mem rest c ' ')
          have h1 : pyStripL [(c :: rest).getLastD ' '] = [] := by
            unfold pyStripL trimLead
            rw [List.dropWhile_cons, hws]
            simp [trimTrail]
          have h2 : pyStripL (c :: rest) = [] := by
            unfold pyStripL trimLead
            rw [hnil]
            simp [trimTrail]
          rw [h1, h2]
      · have hne : ¬ (c :: rest).dropWhile pyIsSpace = [] := by
          intro hh
          rw [hh] at ht
          exact ht rfl
        refine ⟨(c :: rest).dropWhile pyIsSpace, ?_, ?_⟩
        · simp only [group1, if_neg ht]
        · unfold pyStripL trimLead
          rw [dropWhile_dropWhile]

/-- C6 (amended): on HTTP status 200 the completion-endpoint translator
returns the text following the first literal `translation:` marker, trimmed,
whenever at least one character follows the marker (the marker split is sound:
the completion really is prefix ++ marker ++ remainder); when the marker is
absent **or nothing follows it** (the regex group `(.+)` needs at least one
character), it returns the full raw completion trimmed; and it raises an
error exactly when the status is not 200. -/
theorem c6_completion_extraction_amended :
    ∀ (status : Nat) (text : String),
    (¬ status = 200 →
       vllm_translate status text = Except.error "vLLM Translation Error") ∧
    (status = 200 → vllm_translate status text = Except.ok (vllmExtract text)) ∧
    (∀ p r, findMarkerSplit text.data [] = some (p, r) →
       String.mk (p ++ markerChars ++ r) = text ∧
       (¬ r = [] → vllmExtract text = pyStrip (String.mk r))) ∧
    (findMarkerSplit text.data [] = none → vllmExtract text = pyStrip text) ∧
    (∀ p, findMarkerSplit text.data [] = some (p, []) → vllmExtract text = pyStrip text) := by
  intro status text
  refine ⟨?_, ?_, ?_, ?_, ?_⟩
  · intro h
    unfold vllm_translate
    rw [if_neg h]
  · intro h
    unfold vllm_translate
    rw [if_pos h]
  · intro p r h
    constructor
    · have hs := findMarkerSplit_sound text.data [] p r h
      simp only [List.reverse_nil, List.nil_append] at hs
      rw [hs, mk_data]
    · intro hr
      obtain ⟨g, hg, hstr⟩ := group1_strip r hr
      simp only [vllmExtract, h, hg]
      unfold pyStrip
      rw [data_mk, hstr]
  · intro h
    simp only [vllmExtract, h]
  · intro p h
    simp only [vllmExtract, h]
    rfl

/-- Witness for C6 (amended): a non-200 status raises, and a completion with
a marker followed by text yields the trimmed text after the marker. -/
theorem c6_completion_extraction_amended_witness :
    vllm_translate 404 "x" = Except.error "vLLM Translation Error" ∧
    vllmExtract "raw: a\ntranslation: Hi there" = pyStrip (String.mk " Hi there".data) :=
  ⟨(c6_completion_extraction_amended 404 "x").1 (by decide),
   ((c6_completion_extraction_amended 200 "raw: a\ntranslation: Hi there").2.2.1
     "raw: a\n".data " Hi there".data (by decide)).2 (by decide)⟩

/-- Counterexample to C6 as stated: in the completion "x translation:" the
literal marker is present (the split succeeds with an empty remainder), so by
the claim the result should be the text following it, i.e. the empty string;
the code instead returns the full completion trimmed, "x translation:". -/
theorem c6_counterexample :
    vllm_translate 200 "x translation:" = Except.ok "x translation:" ∧
    findMarkerSplit "x translation:".data [] = some ("x ".data, []) ∧
    ¬ "x translation:" = "" := by
  decide

/-! ## Claim C7 -/

/-- C7 (amended): the Marian loader attempts a UTF-8 decode, on failure a
UTF-16 decode, signals a decode error if and only if both fail, and on a
successful decode returns that decode's content as its stripped non-blank
lines; the DeepL script's loader tries the same two decodes in the same
order but, when both fail, silently proceeds with an empty paragraph list
instead of signalling any error. -/
theorem c7_encoding_fallback_amended :
    ∀ (utf8 utf16 : Option String),
    ((∃ e, read_file_with_encoding_fallback utf8 utf16 = Except.error e) ↔
       utf8 = none ∧ utf16 = none) ∧
    (∀ c, utf8 = some c →
       read_file_with_encoding_fallback utf8 utf16 = Except.ok (stripLines c)) ∧
    (∀ c, utf8 = none → utf16 = some c →
       read_file_with_encoding_fallback utf8 utf16 = Except.ok (stripLines c)) ∧
    (∀ e, ¬ deeplReadParagraphs utf8 utf16 = Except.error e) ∧
    (utf8 = none → utf16 = none → deeplReadParagraphs utf8 utf16 = Except.ok []) := by
  intro utf8 utf16
  refine ⟨?_, ?_, ?_, ?_, ?_⟩
  · constructor
    · rintro ⟨e, he⟩
      cases utf8 with
      | some c => simp [read_file_with_encoding_fallback] at he
      | none =>
          cases utf16 with
          | some c => simp [read_file_with_encoding_fallback] at he
          | none => exact ⟨rfl, rfl⟩
    · rintro ⟨h8, h16⟩
      subst h8
      subst h16
      exact ⟨"UnicodeDecodeError", rfl⟩
  · intro c h
    subst h
    rfl
  · intro c h8 h16
    subst h8
    subst h16
    rfl
  · intro e he
    cases utf8 with
    | some c => simp [deeplReadParagraphs] at he
    | none =>
        cases utf16 with
        | some c => simp [deeplReadParagraphs] at he
        | none => simp [deeplReadParagraphs] at he
  · intro h8 h16
    subst h8
    subst h16
    rfl

/-- Witness for C7 (amended): concrete decode outcomes — a UTF-8 success and
a UTF-16 fallback success, with the stripped non-blank lines returned. -/
theorem c7_encoding_fallback_amended_witness :
    read_file_with_encoding_fallback (some "a\n\nb") none = Except.ok ["a", "b"] ∧
    read_file_with_encoding_fallback none (some " x \ny\n") = Except.ok ["x", "y"] ∧
    deeplReadParagraphs none none = Except.ok [] := by
  refine ⟨?_, ?_, ?_⟩
  · have h := (c7_encoding_fallback_amended (some "a\n\nb") none).2.1 "a\n\nb" rfl
    rw [h]
    decide
  · have h := (c7_encoding_fallback_amended none (some " x \ny\n")).2.2.1 " x \ny\n" rfl rfl
    rw [h]
    decide
  · exact (c7_encoding_fallback_amended none none).2.2.2.2 rfl rfl

/-- Counterexample to C7 as stated: in the DeepL script, when both the UTF-8
and the UTF-16 decode fail, no error is signalled — the run silently
continues with an empty paragraph list. -/
theorem c7_counterexample :
    deeplReadParagraphs none none = Except.ok [] := rfl

/-! ## Claim C8 -/

theorem str_append_assoc (a b c : String) : a ++ b ++ c = a ++ (b ++ c) := by
  cases a with
  | mk x =>
      cases b with
      | mk y =>
          cases c with
          | mk z =>
              show String.mk (x ++ y ++ z) = String.mk (x ++ (y ++ z))
              rw [List.append_assoc]

theorem str_append_empty (a : String) : a ++ "" = a := by
  cases a with
  | mk l =>
      show String.mk (l ++ []) = String.mk l
      rw [List.append_nil]

theorem str_empty_append (a : String) : "" ++ a = a := by
  cases a with
  | mk l => rfl

theorem foldl_str : ∀ (t : List String) (s : String),
    t.foldl (fun r x => r ++ x) s = s ++ t.foldl (fun r x => r ++ x) "" := by
  intro t
  induction t with
  | nil =>
      intro s
      simp only [List.foldl_nil]
      exact (str_append_empty s).symm
  | cons b t ih =>
      intro s
      rw [List.foldl_cons, List.foldl_cons, ih (s ++ b), ih ("" ++ b), str_empty_append,
        str_append_assoc]

theorem str_join_cons (a : String) (t : List String) :
    String.join (a :: t) = a ++ String.join t := by
  show (a :: t).foldl (fun r x => r ++ x) "" = a ++ t.foldl (fun r x => r ++ x) ""
  rw [List.foldl_cons, str_empty_append]
  exact foldl_str t a

theorem jpSplitStruct_ne_nil : ∀ (l acc : List Char), ¬ jpSplitStruct l acc = [] := by
  intro l
  induction l with
  | nil =>
      intro acc h
      exact List.noConfusion h
  | cons c rest ih =>
      intro acc
      by_cases hc : sentEnd c = true
      · simp [jpSplitStruct, hc]
      · simp only [jpSplitStruct, if_neg hc]
        exact ih (c :: acc)

theorem jpSplitStruct_join : ∀ (l acc : List Char),
    String.join (jpSplitStruct l acc) = String.mk (acc.reverse ++ l) := by
  intro l
  induction l with
  | nil =>
      intro acc
      show String.join [String.mk acc.reverse] = String.mk (acc.reverse ++ [])
      rw [str_join_cons, List.append_nil]
      exact str_append_empty _
  | cons c rest ih =>
      intro acc
      by_cases hc : sentEnd c = true
      · simp only [jpSplitStruct, if_pos hc]
        rw [str_join_cons, ih []]
        simp only [List.reverse_nil, List.nil_append]
        rw [mk_append]
        congr 1
        simp
      · simp only [jpSplitStruct, if_neg hc]
        rw [ih (c :: acc)]
        congr 1
        simp

theorem jpSplitStruct_dropLast_ends : ∀ (l acc : List Char),
    ∀ s ∈ (jpSplitStruct l acc).dropLast, endsWithSentEnd s = true := by
  intro l
  induction l with
  | nil =>
      intro acc s hs
      simp [jpSplitStruct] at hs
  | cons c rest ih =>
      intro acc s hs
      by_cases hc : sentEnd c = true
      · simp only [jpSplitStruct, if_pos hc] at hs
        rcases hRs : jpSplitStruct rest [] with _ | ⟨y, t⟩
        · exact absurd hRs (jpSplitStruct_ne_nil rest [])
        · rw [hRs] at hs
          rw [show (String.mk (acc.reverse ++ [c]) :: y :: t).dropLast
              = String.mk (acc.reverse ++ [c]) :: (y :: t).dropLast from rfl] at hs
          rcases List.mem_cons.mp hs with h1 | h1
          · subst h1
            unfold endsWithSentEnd
            rw [data_mk, List.getLast?_concat]
            exact hc
          · refine ih [] s ?_
            rw [hRs]
            exact h1
      · simp only [jpSplitStruct, if_neg hc] at hs
        exact ih (c :: acc) s hs

theorem jpSplitStruct_no_inner : ∀ (l acc : List Char),
    (∀ c ∈ acc, sentEnd c = false) →
    ∀ s ∈ jpSplitStruct l acc, (s.data.dropLast).all (fun c => !sentEnd c) = true := by
  intro l
  induction l with
  | nil =>
      intro acc hacc s hs
      simp only [jpSplitStruct, List.mem_singleton] at hs
      subst hs
      rw [data_mk, List.all_eq_true]
      intro c hc
      have hc2 : c ∈ acc.reverse := List.dropLast_subset _ hc
      have := hacc c (List.mem_reverse.mp hc2)
      simp [this]
  | cons c rest ih =>
      intro acc hacc s hs
      by_cases hc : sentEnd c = true
      · simp only [jpSplitStruct, if_pos hc] at hs
        rcases List.mem_cons.mp hs with h1 | h1
        · subst h1
          rw [data_mk, List.dropLast_concat, List.all_eq_true]
          intro x hx
          have := hacc x (List.mem_reverse.mp hx)
          simp [this]
        · refine ih [] ?_ s h1
          intro x hx
          exact absurd hx (List.not_mem_nil x)
      · simp only [jpSplitStruct, if_neg hc] at hs
        refine ih (c :: acc) ?_ s hs
        intro x hx
        rcases List.mem_cons.mp hx with h1 | h1
        · subst h1
          cases hcc : sentEnd x
          · rfl
          · exact absurd hcc hc
        · exact hacc x h1

/-- C8 (amended): for Japanese, the segmenter cuts the paragraph exactly at
sentence-ending punctuation `。！？`, keeping the punctuation attached (the
cut pieces concatenate back to the paragraph, every non-final piece ends
with such punctuation, and no piece contains one before its last character),
drops the whitespace after each cut and the blank pieces; the sentences that
pass the meaningfulness test are rejoined with single spaces to form the
translation unit.  On splitter failure, however, `translate.py` falls back
to a naive `。`-split that appends `。` to every non-blank chunk (every
returned piece ends in `。`), and only the v1.1 variant returns the whole
paragraph unchanged as a single unit. -/
theorem c8_japanese_segmentation_amended :
    ∀ (kssSplit nltkSplit : String → List String) (text : String),
    String.join (jpSplitStruct text.data []) = text ∧
    (∀ s ∈ (jpSplitStruct text.data []).dropLast, endsWithSentEnd s = true) ∧
    (∀ s ∈ jpSplitStruct text.data [], (s.data.dropLast).all (fun c => !sentEnd c) = true) ∧
    (∀ s ∈ split_text_by_sentence true kssSplit nltkSplit text Lang.japanese,
       ¬ pyStrip s = "") ∧
    (∀ s ∈ split_text_by_sentence false kssSplit nltkSplit text Lang.japanese,
       s.data.getLast? = some '。') ∧
    split_text_by_sentence_v11_ja false text = [pyStrip text] ∧
    (∀ (splitter : String → List String) (cleaned : String),
       paraUnit splitter cleaned
         = String.intercalate " "
             (((splitter cleaned).filter (fun s => is_meaningful s)).map pyStrip)) := by
  intro kssSplit nltkSplit text
  refine ⟨?_, jpSplitStruct_dropLast_ends text.data [],
    jpSplitStruct_no_inner text.data [] (fun c hc => absurd hc (List.not_mem_nil c)),
    ?_, ?_, rfl, fun splitter cleaned => rfl⟩
  · have h := jpSplitStruct_join text.data []
    simpa [mk_data] using h
  · intro s hs
    simp only [split_text_by_sentence] at hs
    have h2 := (List.mem_filter.mp hs).2
    intro heq
    rw [heq] at h2
    simp at h2
  · intro s hs
    simp only [split_text_by_sentence] at hs
    obtain ⟨x, _, hx⟩ := List.mem_map.mp hs
    subst hx
    rw [data_append]
    exact List.getLast?_concat _

/-- Witness for C8 (amended) at concrete inputs: lossless cut of a concrete
paragraph, punctuation attached to a non-final piece, a non-blank surviving
piece, a `。`-terminated fallback piece, and the v1.1 whole-paragraph
failure fallback. -/
theorem c8_japanese_segmentation_amended_witness :
    String.join (jpSplitStruct "あ。 い！う".data []) = "あ。 い！う" ∧
    endsWithSentEnd "あ。" = true ∧
    ¬ pyStrip "あ。" = "" ∧
    "あ！い。".data.getLast? = some '。' ∧
    split_text_by_sentence_v11_ja false "あ！い" = [pyStrip "あ！い"] := by
  refine ⟨(c8_japanese_segmentation_amended (fun s => [s]) (fun s => [s]) "あ。 い！う").1,
    ?_, ?_, ?_,
    (c8_japanese_segmentation_amended (fun s => [s]) (fun s => [s]) "あ！い").2.2.2.2.2.1⟩
  · exact (c8_japanese_segmentation_amended (fun s => [s]) (fun s => [s]) "あ。 い！う").2.1
      "あ。" (by decide)
  · exact (c8_japanese_segmentation_amended (fun s => [s]) (fun s => [s]) "あ。 い！う").2.2.2.1
      "あ。" (by decide)
  · exact (c8_japanese_segmentation_amended (fun s => [s]) (fun s => [s]) "あ！い").2.2.2.2.1
      "あ！い。" (by decide)

/-- Counterexample to C8 as stated: on splitter failure (`nagisaAvailable =
false`) `translate.py` does not return the paragraph whole and unchanged —
for the paragraph "あ！い" the fallback returns ["あ！い。"], appending a
`。` that was never in the input. -/
theorem c8_counterexample :
    split_text_by_sentence false (fun s => [s]) (fun s => [s]) "あ！い" Lang.japanese
      = ["あ！い。"] ∧
    ¬ split_text_by_sentence false (fun s => [s]) (fun s => [s]) "あ！い" Lang.japanese
      = ["あ！い"] := by
  decide

end AxiaMTL
